import Mathlib

/-!
# Verification of the Fundamentus stock-analyzer core (`analyzer.py`)

Shallow embedding of the extraction–normalization–valuation pipeline of
`HybridStockAnalyzer`:

* `clean_value`            — locale-aware numeric normalizer,
* `extractTableData`       — labeled table extractor (`_extract_table_data`),
* `extract_financial_data` — indicator assembler,
* `calculate_fair_price`   — the four valuation models plus weighted average,
* `generate_investment_analysis` — the rule-based recommendation scorer.

Modelling conventions:

* Python floats are modelled as exact rationals (`ℚ`); `round(x, 2)` is
  modelled as `⌊100·x + 1/2⌋ / 100` (round-half-up; no value in the verified
  claims lands on an exact half-cent tie, where CPython would round to even).
* `math.sqrt` composed with `round(·, 2)` is modelled exactly on rationals via
  `Nat.sqrt` (`rsqrt2`); theorem `rsqrt2_eq_floor_sqrt` proves this computable
  definition agrees with the real-number expression `⌊100·√q + 1/2⌋ / 100`.
* Python dictionaries appear as association lists (first binding wins on
  lookup, as in the code, which guards every insert with a membership test) or
  as structures when the key set is fixed.
* Log statements have no observable effect and are dropped.
-/

/-- Model of Python `round(x, 2)` on exact rationals (round half up). -/
def round2 (x : ℚ) : ℚ := ((⌊x * 100 + 1/2⌋ : ℤ) : ℚ) / 100

/-- Exact rational computation of `round(math.sqrt(q), 2)` for `q ≥ 0`:
`⌊√q·100 + 1/2⌋ / 100` computed through `Nat.sqrt`
(see `rsqrt2_eq_floor_sqrt`). -/
def rsqrt2 (q : ℚ) : ℚ :=
  (((Nat.sqrt (40000 * q.num.toNat * q.den) / q.den + 1) / 2 : ℕ) : ℚ) / 100

/-- `Nat.sqrt` at a concrete value, characterized by squaring. -/
theorem natSqrt_eq {m n : ℕ} (h1 : m * m ≤ n) (h2 : n < (m + 1) * (m + 1)) :
    Nat.sqrt n = m := by
  have hlt : Nat.sqrt n < m + 1 := by
    rw [Nat.sqrt_lt]
    exact h2
  have hge : m ≤ Nat.sqrt n := by
    rw [Nat.le_sqrt]
    exact h1
  omega

/-- The integer numerator computed by `rsqrt2` is exactly `⌊√q·100 + 1/2⌋`,
i.e. `rsqrt2` faithfully models `round(math.sqrt(q), 2)` (half-up). -/
theorem floor_sqrt_round (q : ℚ) (h : 0 ≤ q) :
    ⌊Real.sqrt q * 100 + 1/2⌋ =
      ((Nat.sqrt (40000 * q.num.toNat * q.den) / q.den + 1) / 2 : ℕ) := by
  set n := q.num.toNat with hn
  set d := q.den with hdd
  set K := 40000 * n * d with hK
  set S := Nat.sqrt K with hS
  set s := S / d with hs
  set M := (s + 1) / 2 with hM
  have hd : 0 < d := q.den_pos
  have hdR : (0 : ℝ) < (d : ℝ) := by exact_mod_cast hd
  have hqR : ((n : ℝ) / (d : ℝ)) = (q : ℝ) := by
    rw [Rat.cast_def]
    congr 1
    have h1 : ((q.num.toNat : ℤ) : ℝ) = (q.num : ℝ) := by
      rw [Int.toNat_of_nonneg (Rat.num_nonneg.mpr h)]
    push_cast at h1
    exact h1
  have hsqrtq : (0 : ℝ) ≤ Real.sqrt q := Real.sqrt_nonneg _
  have key : 200 * Real.sqrt q = Real.sqrt K / d := by
    have h1 : ((K : ℕ) : ℝ) / ((d : ℝ))^2 = 40000 * (q : ℝ) := by
      rw [← hqR]
      push_cast [hK]
      field_simp
      ring
    have h2 : Real.sqrt ((K : ℝ) / ((d : ℝ))^2) = Real.sqrt K / d := by
      rw [Real.sqrt_div (by positivity), Real.sqrt_sq (le_of_lt hdR)]
    have h3 : Real.sqrt (40000 * (q : ℝ)) = 200 * Real.sqrt q := by
      rw [show (40000 : ℝ) = 200^2 by norm_num, Real.sqrt_mul (by positivity),
        Real.sqrt_sq (by norm_num)]
    rw [← h3, ← h1, h2]
  have hupper : 200 * Real.sqrt q < 2 * M + 1 := by
    have h1 : S < (s + 1) * d := by
      rw [hs, ← Nat.div_lt_iff_lt_mul hd]
      omega
    have h2 : s + 1 ≤ 2 * M + 1 := by
      have := Nat.div_add_mod (s + 1) 2
      omega
    have h3 : K < ((2 * M + 1) * d) * ((2 * M + 1) * d) := by
      have hK1 : K < (S + 1) * (S + 1) := Nat.lt_succ_sqrt K
      have hS1 : S + 1 ≤ (2 * M + 1) * d := by
        calc S + 1 ≤ (s + 1) * d := h1
        _ ≤ (2 * M + 1) * d := Nat.mul_le_mul_right d h2
      calc K < (S + 1) * (S + 1) := hK1
      _ ≤ ((2 * M + 1) * d) * ((2 * M + 1) * d) := Nat.mul_le_mul hS1 hS1
    have h4 : Real.sqrt K < ((2 * M + 1) * d : ℕ) := by
      have := Real.sqrt_lt_sqrt (x := (K : ℝ)) (by positivity)
        (y := (((2 * M + 1) * d : ℕ) : ℝ)^2) (by rw [sq]; exact_mod_cast h3)
      rwa [Real.sqrt_sq (by positivity)] at this
    rw [key, div_lt_iff₀ hdR]
    push_cast at h4 ⊢
    nlinarith [h4]
  have hlower : (2 * M : ℝ) - 1 ≤ 200 * Real.sqrt q := by
    by_cases hM0 : M = 0
    · rw [hM0]
      simp
      nlinarith [hsqrtq]
    · have hM1 : 1 ≤ M := Nat.one_le_iff_ne_zero.mpr hM0
      have h2 : 2 * M - 1 ≤ s := by
        have := Nat.div_add_mod (s + 1) 2
        omega
      have h3 : ((2 * M - 1) * d) * ((2 * M - 1) * d) ≤ K := by
        have hsd : s * d ≤ S := Nat.div_mul_le_self S d
        have hSS : S * S ≤ K := Nat.sqrt_le K
        have h4 : (2 * M - 1) * d ≤ S := le_trans (Nat.mul_le_mul_right d h2) hsd
        calc ((2 * M - 1) * d) * ((2 * M - 1) * d) ≤ S * S := Nat.mul_le_mul h4 h4
        _ ≤ K := hSS
      have h5 : (((2 * M - 1) * d : ℕ) : ℝ) ≤ Real.sqrt K := by
        rw [Real.le_sqrt (by positivity) (by positivity), sq]
        exact_mod_cast h3
      have hcast : (((2 * M - 1) * d : ℕ) : ℝ) = ((2 * M : ℝ) - 1) * d := by
        push_cast [Nat.cast_sub (by omega : 1 ≤ 2 * M)]
        ring
      rw [key, le_div_iff₀ hdR]
      rw [hcast] at h5
      exact h5
  rw [Int.floor_eq_iff]
  constructor
  · push_cast
    nlinarith [hlower]
  · push_cast
    nlinarith [hupper]

/-- `rsqrt2 q` is the 2-decimal half-up rounding of `√q`, as a single
equation on the rounded value. -/
theorem rsqrt2_eq_floor_sqrt (q : ℚ) (h : 0 ≤ q) :
    rsqrt2 q = ((⌊Real.sqrt q * 100 + 1/2⌋ : ℤ) : ℚ) / 100 := by
  rw [floor_sqrt_round q h, rsqrt2, Int.cast_natCast]

/-- `round2` of a non-negative rational is non-negative. -/
theorem round2_nonneg {x : ℚ} (h : 0 ≤ x) : 0 ≤ round2 x := by
  unfold round2
  have h1 : (0 : ℤ) ≤ ⌊x * 100 + 1/2⌋ := by
    rw [Int.le_floor]
    push_cast
    nlinarith
  positivity

/-- `rsqrt2` is always non-negative. -/
theorem rsqrt2_nonneg (q : ℚ) : 0 ≤ rsqrt2 q := by
  unfold rsqrt2
  positivity

/-! ## Financial record and fair-price models (`calculate_fair_price`) -/

/-- The fields of the assembled financial-data record that the valuation and
recommendation code reads (`data.get(key, 0.0)` in the source; assembly by
`extract_financial_data` always populates every key, so total fields are
faithful). -/
structure FinancialRecord where
  cotacao_atual : ℚ
  lucro_por_acao : ℚ
  valor_patrimonial_acao : ℚ
  roe : ℚ
  dividend_yield : ℚ
  liquidez_corrente : ℚ
  roic : ℚ
  preco_lucro : ℚ
  divida_bruta_patrimonio : ℚ
  cres_receita_5a : ℚ
  nome_empresa_completo : String
deriving DecidableEq, Repr

/-- The dictionary returned by `calculate_fair_price`. -/
structure FairPriceSet where
  graham : ℚ
  ddm : ℚ
  pe_adjusted : ℚ
  pvp_adjusted : ℚ
  average : ℚ
deriving DecidableEq, Repr

/-- Graham model: `round(sqrt(22.5 * lpa * vpa), 2)` when `lpa > 0` and
`vpa > 0`, else `0.0` (the `try/except ValueError` in the source can only
fire for a negative radicand, which the guard already excludes). -/
def grahamModel (lpa vpa : ℚ) : ℚ :=
  if 0 < lpa ∧ 0 < vpa then rsqrt2 (22.5 * lpa * vpa) else 0

/-- Dividend-discount model, lines 266–283 of `analyzer.py`. -/
def ddmModel (cotacao div_yield roe lpa : ℚ) : ℚ :=
  if 0 < cotacao ∧ 0 < div_yield ∧ 0 < roe ∧ lpa ≠ 0 then
    let dpa := cotacao * div_yield
    let payout := dpa / lpa
    if 0 ≤ payout ∧ payout ≤ 1 then
      let g := roe * (1 - payout)
      if g < 0.12 ∧ 0 ≤ g then
        let d1 := dpa * (1 + g)
        let denom := 0.12 - g
        if 1/1000000 < denom then round2 (min (max (d1 / denom) 0) (cotacao * 5))
        else 0
      else 0
    else 0
  else 0

/-- Adjusted-P/E model, lines 285–291 of `analyzer.py`. -/
def peAdjusted (lpa roe liquidez : ℚ) : ℚ :=
  let score : ℚ :=
    (if 0.15 < roe then 3 else if 0.10 < roe then 2 else 0) +
    (if 1.5 < liquidez then 2 else 0)
  round2 (lpa * min (8 + score * 1.5) 25)

/-- Adjusted-P/VP model, lines 293–298 of `analyzer.py`. -/
def pvpAdjusted (vpa roe : ℚ) : ℚ :=
  let m : ℚ :=
    if 0.20 < roe then 2.5 else if 0.15 < roe then 2 else if 0.10 < roe then 1.5 else 1
  round2 (vpa * m)

/-- Weighted average over the strictly positive models, lines 300–311:
weights 0.3/0.2/0.3/0.2 renormalized over the included subset. -/
def averageModel (g d pe pvp : ℚ) : ℚ :=
  let models : List (ℚ × ℚ) := [(g, 0.3), (d, 0.2), (pe, 0.3), (pvp, 0.2)]
  let included := models.filter fun p => 0 < p.1
  if included.isEmpty then 0
  else
    let totalWt := (included.map fun p => p.2).sum
    if 0 < totalWt then round2 ((included.map fun p => p.1 * (p.2 / totalWt)).sum)
    else 0

/-- `HybridStockAnalyzer.calculate_fair_price`. -/
def calculate_fair_price (data : FinancialRecord) : FairPriceSet :=
  let g := grahamModel data.lucro_por_acao data.valor_patrimonial_acao
  let d := ddmModel data.cotacao_atual data.dividend_yield data.roe data.lucro_por_acao
  let pe := peAdjusted data.lucro_por_acao data.roe data.liquidez_corrente
  let pvp := pvpAdjusted data.valor_patrimonial_acao data.roe
  { graham := g, ddm := d, pe_adjusted := pe, pvp_adjusted := pvp,
    average := averageModel g d pe pvp }

/-- Evaluation helper: `round2 x = y` once an integer `z` with
`z ≤ 100·x + 1/2 < z + 1` and `z/100 = y` is exhibited. -/
theorem round2_eq_of {x y : ℚ} {z : ℤ} (hz : (z : ℚ) / 100 = y)
    (h1 : (z : ℚ) ≤ x * 100 + 1/2) (h2 : x * 100 + 1/2 < z + 1) : round2 x = y := by
  unfold round2
  rw [show ⌊x * 100 + 1/2⌋ = z from Int.floor_eq_iff.mpr ⟨h1, by exact_mod_cast h2⟩, hz]

/-- Total base weight of the models with strictly positive value
(the `sum(wts)` of the source loop, written pointwise). -/
def totalIncludedWeight (g d pe pv : ℚ) : ℚ :=
  (if 0 < g then (0.3 : ℚ) else 0) + (if 0 < d then (0.2 : ℚ) else 0) +
  (if 0 < pe then (0.3 : ℚ) else 0) + (if 0 < pv then (0.2 : ℚ) else 0)

/-- Closed form of the filter-and-renormalize loop of `calculate_fair_price`. -/
theorem averageModel_spec (g d pe pv : ℚ) :
    averageModel g d pe pv =
      (if 0 < g ∨ 0 < d ∨ 0 < pe ∨ 0 < pv then
        round2
          ((if 0 < g then g * (0.3 / totalIncludedWeight g d pe pv) else 0) +
          (if 0 < d then d * (0.2 / totalIncludedWeight g d pe pv) else 0) +
          (if 0 < pe then pe * (0.3 / totalIncludedWeight g d pe pv) else 0) +
          (if 0 < pv then pv * (0.2 / totalIncludedWeight g d pe pv) else 0))
      else 0) := by
  by_cases hg : 0 < g <;> by_cases hd : 0 < d <;> by_cases hpe : 0 < pe <;> by_cases hpv : 0 < pv <;>
    simp [averageModel, totalIncludedWeight, List.filter, hg, hd, hpe, hpv] <;>
    (try norm_num) <;> (try (congr 1 <;> ring))

/-- The renormalized weights of the included models always sum to 1. -/
theorem includedWeights_sum_one (g d pe pv : ℚ) (h : 0 < g ∨ 0 < d ∨ 0 < pe ∨ 0 < pv) :
    (if 0 < g then (0.3 : ℚ) / totalIncludedWeight g d pe pv else 0) +
    (if 0 < d then (0.2 : ℚ) / totalIncludedWeight g d pe pv else 0) +
    (if 0 < pe then (0.3 : ℚ) / totalIncludedWeight g d pe pv else 0) +
    (if 0 < pv then (0.2 : ℚ) / totalIncludedWeight g d pe pv else 0) = 1 := by
  by_cases hg : 0 < g <;> by_cases hd : 0 < d <;> by_cases hpe : 0 < pe <;> by_cases hpv : 0 < pv <;>
    simp [totalIncludedWeight, hg, hd, hpe, hpv] at h ⊢ <;> norm_num

/-- The Graham model is never negative. -/
theorem grahamModel_nonneg (lpa vpa : ℚ) : 0 ≤ grahamModel lpa vpa := by
  unfold grahamModel
  split_ifs
  · exact rsqrt2_nonneg _
  · norm_num

/-- The dividend-discount model is never negative (the clamp floors at 0). -/
theorem ddmModel_nonneg (c y r l : ℚ) : 0 ≤ ddmModel c y r l := by
  simp only [ddmModel]
  split_ifs with h1 h2 h3 h4
  · apply round2_nonneg
    have hc : 0 < c := h1.1
    exact le_min (le_max_right _ _) (by positivity)
  all_goals norm_num

/-- The adjusted-P/E model is non-negative whenever earnings per share are. -/
theorem peAdjusted_nonneg (lpa roe liq : ℚ) (h : 0 ≤ lpa) : 0 ≤ peAdjusted lpa roe liq := by
  unfold peAdjusted
  apply round2_nonneg
  apply mul_nonneg h
  split_ifs <;> norm_num [min_def] <;> split_ifs <;> norm_num

/-- The adjusted-P/VP model is non-negative whenever book value per share is. -/
theorem pvpAdjusted_nonneg (vpa roe : ℚ) (h : 0 ≤ vpa) : 0 ≤ pvpAdjusted vpa roe := by
  unfold pvpAdjusted
  apply round2_nonneg
  apply mul_nonneg h
  split_ifs <;> norm_num

/-- The total included weight is positive once some model is positive. -/
theorem totalIncludedWeight_pos (g d pe pv : ℚ) (h : 0 < g ∨ 0 < d ∨ 0 < pe ∨ 0 < pv) :
    0 < totalIncludedWeight g d pe pv := by
  unfold totalIncludedWeight
  split_ifs <;> try norm_num
  tauto

/-- The weighted average is never negative. -/
theorem averageModel_nonneg (g d pe pv : ℚ) : 0 ≤ averageModel g d pe pv := by
  rw [averageModel_spec]
  by_cases h : 0 < g ∨ 0 < d ∨ 0 < pe ∨ 0 < pv
  · rw [if_pos h]
    have hT := totalIncludedWeight_pos g d pe pv h
    apply round2_nonneg
    have h1 : ∀ v w : ℚ, 0 ≤ w →
        0 ≤ (if 0 < v then v * (w / totalIncludedWeight g d pe pv) else 0) := by
      intro v w hw
      split_ifs with hv
      · exact mul_nonneg (le_of_lt hv) (div_nonneg hw (le_of_lt hT))
      · norm_num
    exact add_nonneg (add_nonneg (add_nonneg (h1 g 0.3 (by norm_num))
      (h1 d 0.2 (by norm_num))) (h1 pe 0.3 (by norm_num))) (h1 pv 0.2 (by norm_num))
  · rw [if_neg h]

/-- Concrete Graham evaluation at `lpa = 1.5`, `vpa = 12`. -/
theorem grahamModel_at_synth : grahamModel 1.5 12 = 20.12 := by
  have hq : (22.5 * 1.5 * 12 : ℚ) = 405 := by norm_num
  have hs : Nat.sqrt 16200000 = 4024 := natSqrt_eq (by norm_num) (by norm_num)
  rw [grahamModel, if_pos (by norm_num), hq, rsqrt2,
    show (40000 * (405 : ℚ).num.toNat * (405 : ℚ).den) = 16200000 from rfl, hs,
    show ((405 : ℚ).den) = 1 from rfl]
  norm_num

/-- Concrete Graham evaluation at `eps = 2`, `bvps = 10`. -/
theorem grahamModel_two_ten : grahamModel 2 10 = 21.21 := by
  have hq : (22.5 * 2 * 10 : ℚ) = 450 := by norm_num
  have hs : Nat.sqrt 18000000 = 4242 := natSqrt_eq (by norm_num) (by norm_num)
  rw [grahamModel, if_pos (by norm_num), hq, rsqrt2,
    show (40000 * (450 : ℚ).num.toNat * (450 : ℚ).den) = 18000000 from rfl, hs,
    show ((450 : ℚ).den) = 1 from rfl]
  norm_num

/-! ## Claim theorems about `calculate_fair_price` -/

/-- **C2 counterexample**: on the synthetic record of the claim
(`cotacao=10, P/L=8, lpa=1.5, vpa=12, roe=0.18, liq=2, divBr=0.3, yield=0`),
`pvp_adjusted` is `24.0` (ROE `0.18 > 0.15` selects multiplier `2.0`),
not the claimed `18.0`. -/
theorem C2_counterexample :
    (calculate_fair_price
      ⟨10, 1.5, 12, 0.18, 0, 2, 0, 8, 0.3, 0, "SYNTH"⟩).pvp_adjusted = 24 ∧
    (calculate_fair_price
      ⟨10, 1.5, 12, 0.18, 0, 2, 0, 8, 0.3, 0, "SYNTH"⟩).pvp_adjusted ≠ 18 := by
  have h : pvpAdjusted (12 : ℚ) 0.18 = 24 := by
    have h1 : pvpAdjusted (12 : ℚ) 0.18 = round2 (12 * 2) := by
      unfold pvpAdjusted
      norm_num
    rw [h1]
    exact round2_eq_of (z := 2400) (by norm_num) (by norm_num) (by norm_num)
  constructor
  · exact h
  · show pvpAdjusted (12 : ℚ) 0.18 ≠ 18
    rw [h]
    norm_num

/-- **C2** (amended): on the synthetic record, the fair prices are
`graham = 20.12`, `ddm = 0`, `pe_adjusted = 23.25`, `pvp_adjusted = 24.0`
(not `18.0`), and `average` is the weighted mean of the three positive models
with weights `0.3, 0.3, 0.2` renormalized over `0.8`, i.e. `22.26`. -/
theorem C2_synthetic_record :
    (calculate_fair_price
      ⟨10, 1.5, 12, 0.18, 0, 2, 0, 8, 0.3, 0, "SYNTH"⟩).graham = 20.12 ∧
    (calculate_fair_price
      ⟨10, 1.5, 12, 0.18, 0, 2, 0, 8, 0.3, 0, "SYNTH"⟩).ddm = 0 ∧
    (calculate_fair_price
      ⟨10, 1.5, 12, 0.18, 0, 2, 0, 8, 0.3, 0, "SYNTH"⟩).pe_adjusted = 23.25 ∧
    (calculate_fair_price
      ⟨10, 1.5, 12, 0.18, 0, 2, 0, 8, 0.3, 0, "SYNTH"⟩).pvp_adjusted = 24 ∧
    (calculate_fair_price
      ⟨10, 1.5, 12, 0.18, 0, 2, 0, 8, 0.3, 0, "SYNTH"⟩).average =
      round2 (20.12 * (0.3 / 0.8) + 23.25 * (0.3 / 0.8) + 24 * (0.2 / 0.8)) ∧
    (calculate_fair_price
      ⟨10, 1.5, 12, 0.18, 0, 2, 0, 8, 0.3, 0, "SYNTH"⟩).average = 22.26 := by
  have hg : grahamModel (1.5 : ℚ) 12 = 20.12 := grahamModel_at_synth
  have hd : ddmModel (10 : ℚ) 0 0.18 1.5 = 0 := by
    simp only [ddmModel]
    norm_num
  have hpe : peAdjusted (1.5 : ℚ) 0.18 2 = 23.25 := by
    have h1 : peAdjusted (1.5 : ℚ) 0.18 2 = round2 (1.5 * 15.5) := by
      unfold peAdjusted
      norm_num [min_def]
    rw [h1]
    exact round2_eq_of (z := 2325) (by norm_num) (by norm_num) (by norm_num)
  have hpv : pvpAdjusted (12 : ℚ) 0.18 = 24 := by
    have h1 : pvpAdjusted (12 : ℚ) 0.18 = round2 (12 * 2) := by
      unfold pvpAdjusted
      norm_num
    rw [h1]
    exact round2_eq_of (z := 2400) (by norm_num) (by norm_num) (by norm_num)
  have hspec := averageModel_spec 20.12 0 23.25 24
  rw [if_pos (by norm_num)] at hspec
  have havgf : averageModel (20.12 : ℚ) 0 23.25 24 =
      round2 (20.12 * (0.3 / 0.8) + 23.25 * (0.3 / 0.8) + 24 * (0.2 / 0.8)) := by
    rw [hspec]
    congr 1
    norm_num [totalIncludedWeight]
  have havg : averageModel (20.12 : ℚ) 0 23.25 24 = 22.26 := by
    rw [havgf]
    exact round2_eq_of (z := 2226) (by norm_num) (by norm_num) (by norm_num)
  have hA : (calculate_fair_price
      ⟨10, 1.5, 12, 0.18, 0, 2, 0, 8, 0.3, 0, "SYNTH"⟩).average =
      averageModel (20.12 : ℚ) 0 23.25 24 := by
    show averageModel (grahamModel 1.5 12) (ddmModel 10 0 0.18 1.5)
      (peAdjusted 1.5 0.18 2) (pvpAdjusted 12 0.18) = averageModel (20.12 : ℚ) 0 23.25 24
    rw [hg, hd, hpe, hpv]
  exact ⟨hg, hd, hpe, hpv, hA.trans havgf, hA.trans havg⟩

/-- **C3 counterexample**: a record with negative earnings per share
(`lpa = -1`, everything else `0`) yields `pe_adjusted = -8 < 0`; the code
multiplies the raw `lpa` by the positive multiplier with no sign guard. -/
theorem C3_counterexample :
    (calculate_fair_price ⟨0, -1, 0, 0, 0, 0, 0, 0, 0, 0, ""⟩).pe_adjusted < 0 := by
  have h : peAdjusted (-1 : ℚ) 0 0 = -8 := by
    have h1 : peAdjusted (-1 : ℚ) 0 0 = round2 (-8) := by
      unfold peAdjusted
      norm_num [min_def]
    rw [h1]
    exact round2_eq_of (z := -800) (by norm_num) (by norm_num) (by norm_num)
  show peAdjusted (-1 : ℚ) 0 0 < 0
  rw [h]
  norm_num

/-- **C3** (amended): `graham`, `ddm` and `average` are non-negative for
every record; `pe_adjusted` (resp. `pvp_adjusted`) is non-negative whenever
`lpa ≥ 0` (resp. `vpa ≥ 0`) — but not in general. -/
theorem C3_nonneg (r : FinancialRecord) :
    0 ≤ (calculate_fair_price r).graham ∧
    0 ≤ (calculate_fair_price r).ddm ∧
    0 ≤ (calculate_fair_price r).average ∧
    (0 ≤ r.lucro_por_acao → 0 ≤ (calculate_fair_price r).pe_adjusted) ∧
    (0 ≤ r.valor_patrimonial_acao → 0 ≤ (calculate_fair_price r).pvp_adjusted) :=
  ⟨grahamModel_nonneg _ _, ddmModel_nonneg _ _ _ _, averageModel_nonneg _ _ _ _,
    fun h => peAdjusted_nonneg _ _ _ h, fun h => pvpAdjusted_nonneg _ _ h⟩

/-- Witness for `C3_nonneg` at a concrete record with `lpa, vpa ≥ 0`. -/
theorem C3_nonneg_witness :
    0 ≤ (calculate_fair_price ⟨10, 2, 3, 0, 0, 0, 0, 0, 0, 0, "W"⟩).pe_adjusted ∧
    0 ≤ (calculate_fair_price ⟨10, 2, 3, 0, 0, 0, 0, 0, 0, 0, "W"⟩).pvp_adjusted :=
  ⟨(C3_nonneg _).2.2.2.1 (by norm_num), (C3_nonneg _).2.2.2.2 (by norm_num)⟩

/-- **C4**: the dividend-discount model returns `0.0` whenever any of its
preconditions fails (flattened into one conjunction: in particular for
`price = 0`), and otherwise returns
`round(clamp(price*yield*(1+g)/(0.12-g), 0, 5*price), 2)`;
being a total function of its four rational inputs, it cannot raise. -/
theorem C4_ddm_guards (c y r l : ℚ) :
    ddmModel 0 y r l = 0 ∧
    ddmModel c y r l =
      (if 0 < c ∧ 0 < y ∧ 0 < r ∧ l ≠ 0 ∧ 0 ≤ c * y / l ∧ c * y / l ≤ 1 ∧
          r * (1 - c * y / l) < 0.12 ∧ 0 ≤ r * (1 - c * y / l) ∧
          1/1000000 < 0.12 - r * (1 - c * y / l) then
        round2 (min (max ((c * y * (1 + r * (1 - c * y / l))) /
          (0.12 - r * (1 - c * y / l))) 0) (c * 5))
      else 0) := by
  constructor
  · simp [ddmModel]
  · simp only [ddmModel]
    split_ifs <;> first | rfl | tauto

/-- **C5**: the composite `average` is `0.0` when no model is strictly
positive; otherwise it is the weighted mean over the strictly positive
models with base weights `0.3/0.2/0.3/0.2` renormalized over the included
subset, and the renormalized weights sum to `1`. -/
theorem C5_average_invariant (g d pe pv : ℚ) :
    (¬(0 < g ∨ 0 < d ∨ 0 < pe ∨ 0 < pv) → averageModel g d pe pv = 0) ∧
    ((0 < g ∨ 0 < d ∨ 0 < pe ∨ 0 < pv) →
      ((if 0 < g then (0.3 : ℚ) / totalIncludedWeight g d pe pv else 0) +
       (if 0 < d then (0.2 : ℚ) / totalIncludedWeight g d pe pv else 0) +
       (if 0 < pe then (0.3 : ℚ) / totalIncludedWeight g d pe pv else 0) +
       (if 0 < pv then (0.2 : ℚ) / totalIncludedWeight g d pe pv else 0) = 1) ∧
      averageModel g d pe pv =
        round2 ((if 0 < g then g * (0.3 / totalIncludedWeight g d pe pv) else 0) +
          (if 0 < d then d * (0.2 / totalIncludedWeight g d pe pv) else 0) +
          (if 0 < pe then pe * (0.3 / totalIncludedWeight g d pe pv) else 0) +
          (if 0 < pv then pv * (0.2 / totalIncludedWeight g d pe pv) else 0))) := by
  constructor
  · intro h
    rw [averageModel_spec, if_neg h]
  · intro h
    exact ⟨includedWeights_sum_one g d pe pv h, by rw [averageModel_spec, if_pos h]⟩

/-- Witness for `C5_average_invariant`: the empty subset gives `0`, and with
only the Graham model positive (`g = 1`) the renormalized weight is
`0.3/0.3 = 1`. -/
theorem C5_average_witness :
    averageModel 0 0 0 0 = 0 ∧
    ((if 0 < (1 : ℚ) then (0.3 : ℚ) / totalIncludedWeight 1 0 0 0 else 0) +
     (if 0 < (0 : ℚ) then (0.2 : ℚ) / totalIncludedWeight 1 0 0 0 else 0) +
     (if 0 < (0 : ℚ) then (0.3 : ℚ) / totalIncludedWeight 1 0 0 0 else 0) +
     (if 0 < (0 : ℚ) then (0.2 : ℚ) / totalIncludedWeight 1 0 0 0 else 0) = 1) ∧
    averageModel 1 0 0 0 =
      round2 ((if 0 < (1 : ℚ) then 1 * (0.3 / totalIncludedWeight 1 0 0 0) else 0) +
        (if 0 < (0 : ℚ) then 0 * (0.2 / totalIncludedWeight 1 0 0 0) else 0) +
        (if 0 < (0 : ℚ) then 0 * (0.3 / totalIncludedWeight 1 0 0 0) else 0) +
        (if 0 < (0 : ℚ) then 0 * (0.2 / totalIncludedWeight 1 0 0 0) else 0)) :=
  ⟨(C5_average_invariant 0 0 0 0).1 (by norm_num),
   ((C5_average_invariant 1 0 0 0).2 (by norm_num)).1,
   ((C5_average_invariant 1 0 0 0).2 (by norm_num)).2⟩

/-- **C6**: the Graham model is `round(sqrt(22.5*eps*bvps), 2)` when both
inputs are positive, `0.0` in every other case, and `21.21` at
`eps = 2, bvps = 10`. -/
theorem C6_graham_model :
    (∀ lpa vpa : ℚ, 0 < lpa → 0 < vpa →
      grahamModel lpa vpa =
        ((⌊Real.sqrt ((22.5 * lpa * vpa : ℚ) : ℝ) * 100 + 1/2⌋ : ℤ) : ℚ) / 100) ∧
    (∀ lpa vpa : ℚ, ¬(0 < lpa ∧ 0 < vpa) → grahamModel lpa vpa = 0) ∧
    grahamModel 2 10 = 21.21 := by
  refine ⟨?_, ?_, grahamModel_two_ten⟩
  · intro lpa vpa h1 h2
    rw [grahamModel, if_pos ⟨h1, h2⟩]
    exact rsqrt2_eq_floor_sqrt _ (by positivity)
  · intro lpa vpa h
    rw [grahamModel, if_neg h]

/-- Witness for `C6_graham_model` at `lpa = vpa = 1` and at a negative input. -/
theorem C6_graham_witness :
    grahamModel 1 1 =
      ((⌊Real.sqrt ((22.5 * 1 * 1 : ℚ) : ℝ) * 100 + 1/2⌋ : ℤ) : ℚ) / 100 ∧
    grahamModel (-1) 1 = 0 :=
  ⟨C6_graham_model.1 1 1 (by norm_num) (by norm_num),
   C6_graham_model.2.1 (-1) 1 (by norm_num)⟩

/-! ## Numeric normalizer (`clean_value`, lines 44–86) -/

/-- ASCII whitespace stripped by Python `str.strip()` (the inputs of interest
contain no non-ASCII whitespace). -/
def isPySpace (c : Char) : Bool :=
  c = ' ' ∨ c = '\t' ∨ c = '\n' ∨ c = '\r' ∨ c = '\x0b' ∨ c = '\x0c'

/-- Python `str.strip()`. -/
def pyStripList (l : List Char) : List Char :=
  ((l.dropWhile isPySpace).reverse.dropWhile isPySpace).reverse

/-- Python `s.replace("R$", "")`: delete every (left-to-right,
non-overlapping) occurrence of the two-character marker. -/
def removeRS : List Char → List Char
  | 'R' :: '$' :: rest => removeRS rest
  | c :: rest => c :: removeRS rest
  | [] => []

/-- Python `"R$" in s`. -/
def containsRS : List Char → Bool
  | 'R' :: '$' :: _ => true
  | _ :: rest => containsRS rest
  | [] => false

/-- Numeric value of a decimal digit character. -/
def digitVal (c : Char) : ℕ := c.toNat - '0'.toNat

/-- Value of a digit string, most significant first. -/
def digitsToNat (l : List Char) : ℕ := l.foldl (fun a c => 10 * a + digitVal c) 0

/-- Model of Python `float()` on the character set that can survive the
regex cleanup (digits, `.`, `-`): an optional leading minus, then digits
with at most one decimal point and at least one digit
(`"12."` and `".5"` parse; `"."`, `""`, `"1.2.3"`, `"1-2"` do not).
The parsed value is kept exact rather than rounded to binary floating point. -/
def pyFloat (s : List Char) : Option ℚ :=
  let neg : Bool := s.head? = some '-'
  let body := if neg then s.tail else s
  if body.any (fun c => c = '-') then none
  else
    let intPart := body.takeWhile (fun c => c ≠ '.')
    match body.dropWhile (fun c => c ≠ '.') with
    | [] =>
      if body.isEmpty ∨ ¬ body.all Char.isDigit then none
      else some ((if neg then -1 else 1) * (digitsToNat body : ℚ))
    | _ :: fracPart =>
      if fracPart.any (fun c => c = '.') then none
      else if ¬ intPart.all Char.isDigit ∨ ¬ fracPart.all Char.isDigit then none
      else if intPart.isEmpty ∧ fracPart.isEmpty then none
      else some ((if neg then -1 else 1) *
        ((digitsToNat intPart : ℚ) + (digitsToNat fracPart : ℚ) / (10 : ℚ)^(fracPart.length)))

/-- `HybridStockAnalyzer.clean_value`: `None`/empty/`"-"` to `0.0`; strip an
`R$` marker; record and strip a `%` marker; delete `.` (thousands), turn `,`
into `.` (decimal); drop any remaining character that is not a digit, `.` or
`-`; parse, divide by 100 when a `%` was present; any parse failure
yields `0.0`. -/
def clean_value (textValue : Option String) : ℚ :=
  match textValue with
  | none => 0
  | some tv =>
    let stripped := pyStripList tv.data
    if stripped = ['-'] ∨ stripped = [] then 0
    else
      let c1 := if containsRS stripped then pyStripList (removeRS stripped) else stripped
      let isPct := c1.any (fun c => c = '%')
      let c2 := if isPct then pyStripList (c1.filter (fun c => c ≠ '%')) else c1
      let c3 := c2.filter (fun c => c ≠ '.')
      let c4 := c3.map (fun c => if c = ',' then '.' else c)
      let c5 := c4.filter (fun c => c.isDigit ∨ c = '.' ∨ c = '-')
      if c5 = [] ∨ c5 = ['-'] then 0
      else
        match pyFloat c5 with
        | some v => if isPct then v / 100 else v
        | none => 0

/-- **C7**: the numeric normalizer is a total function (by construction in
this embedding, mirroring the code's catch-all `except`) and maps
`None ↦ 0.0`, `"" ↦ 0.0`, `"-" ↦ 0.0`, `"1.234,56" ↦ 1234.56`,
`"12,5%" ↦ 0.125`, `"R$ 10,00" ↦ 10.0`, and `"abc" ↦ 0.0`. -/
theorem C7_clean_value :
    clean_value none = 0 ∧
    clean_value (some "") = 0 ∧
    clean_value (some "-") = 0 ∧
    clean_value (some "1.234,56") = 1234.56 ∧
    clean_value (some "12,5%") = 0.125 ∧
    clean_value (some "R$ 10,00") = 10 ∧
    clean_value (some "abc") = 0 := by
  refine ⟨rfl, ?_, ?_, ?_, ?_, ?_, ?_⟩ <;> with_unfolding_all rfl

/-! ## Labeled table extractor (`_extract_table_data`, lines 88–150) -/

/-- The three headline income-statement labels that repeat (12m/3m). -/
def headlineLabels : List String := ["Receita Líquida", "EBIT", "Lucro Líquido"]

/-- The candidate titles that mark a table as the income statement. -/
def dreTitles : List String := ["Dados demonstrativos de resultados", "Demonstrativo de Resultados"]

/-- Key suffix for the first occurrence of a repeating headline label. -/
def suffix12 : String := " (Últimos 12 meses)"

/-- Key suffix for later occurrences of a repeating headline label. -/
def suffix3 : String := " (Últimos 3 meses)"

/-- Python-dict lookup on an insertion-ordered association list. -/
def lookupDict {α : Type} : List (String × α) → String → Option α
  | [], _ => none
  | p :: rest, k => if p.1 == k then some p.2 else lookupDict rest k

/-- Python `key in dict`. -/
def containsKey {α : Type} (d : List (String × α)) (k : String) : Bool :=
  (lookupDict d k).isSome

/-- The guarded insert of the extractor: `if key not in table_data:
table_data[key] = value` (insertion order preserved, no overwrite). -/
def insertIfAbsent {α : Type} (d : List (String × α)) (k : String) (v : α) :
    List (String × α) :=
  if containsKey d k then d else d ++ [(k, v)]

/-- One label/value cell pair of the extractor loop: choose the storage key
(12-month suffix on first sight of a DRE headline label, 3-month suffix on a
repeat, the bare label otherwise), then insert-if-absent the cleaned value.
State = (`dre_labels_order`, `table_data`). -/
def extractStep (isDre : Bool) (st : List String × List (String × ℚ))
    (cell : String × String) : List String × List (String × ℚ) :=
  if isDre && headlineLabels.contains cell.1 then
    if st.1.contains cell.1 then
      (st.1, insertIfAbsent st.2 (cell.1 ++ suffix3) (clean_value (some cell.2)))
    else
      (st.1 ++ [cell.1], insertIfAbsent st.2 (cell.1 ++ suffix12) (clean_value (some cell.2)))
  else
    (st.1, insertIfAbsent st.2 cell.1 (clean_value (some cell.2)))

/-- A titled table: the `span.txt` section heading and its rows, each row the
list of (label text, value text) pairs whose label and data spans both carry
non-empty strings (pairs with a missing span produce nothing in the code and
are dropped from the model). -/
structure TableSection where
  title : String
  rows : List (List (String × String))

/-- The row/cell double loop of `_extract_table_data` over a found table,
starting from the empty `dre_labels_order` and empty `table_data`. -/
def runTable (isDre : Bool) (rows : List (List (String × String))) :
    List (String × ℚ) :=
  (rows.foldl (fun st row => row.foldl (extractStep isDre) st) ([], [])).2

/-- `HybridStockAnalyzer._extract_table_data`: try each candidate title in
order, on the first matching section fold `extractStep` over its rows
(DRE disambiguation active when the matched title is an income-statement
title); no match yields the empty mapping. -/
def extractTableData (sections : List TableSection) (titles : List String) :
    List (String × ℚ) :=
  match titles.findSome? (fun t =>
      (sections.find? (fun sec => sec.title == t)).map (fun sec => (t, sec.rows))) with
  | none => []
  | some (t, rows) => runTable (dreTitles.contains t) rows

/-- Appending a fresh binding does not disturb other keys. -/
theorem lookupDict_append_single_ne {α : Type} (d : List (String × α)) {k k0 : String}
    (v : α) (h : k ≠ k0) : lookupDict (d ++ [(k, v)]) k0 = lookupDict d k0 := by
  induction d with
  | nil => simp [lookupDict, beq_iff_eq, h]
  | cons p rest ih =>
    simp only [List.cons_append, lookupDict]
    split
    · rfl
    · exact ih

/-- Appending a fresh binding makes its key resolvable. -/
theorem lookupDict_append_single_self {α : Type} (d : List (String × α)) (k : String)
    (v : α) (h : lookupDict d k = none) : lookupDict (d ++ [(k, v)]) k = some v := by
  induction d with
  | nil => simp [lookupDict]
  | cons p rest ih =>
    by_cases hp : p.1 == k
    · simp [lookupDict, hp] at h
    · simp only [List.cons_append, lookupDict, if_neg hp] at h ⊢
      exact ih h

/-- `insertIfAbsent` at a different key changes nothing observable there. -/
theorem insertIfAbsent_lookup_ne {α : Type} (d : List (String × α)) {k k0 : String}
    (v : α) (h : k ≠ k0) :
    lookupDict (insertIfAbsent d k v) k0 = lookupDict d k0 := by
  unfold insertIfAbsent
  split
  · rfl
  · exact lookupDict_append_single_ne d v h

/-- `insertIfAbsent` of an absent key stores the value. -/
theorem insertIfAbsent_lookup_new {α : Type} (d : List (String × α)) {k : String}
    (v : α) (h : lookupDict d k = none) :
    lookupDict (insertIfAbsent d k v) k = some v := by
  simp [insertIfAbsent, containsKey, h, lookupDict_append_single_self d k v h]

/-- `insertIfAbsent` of a present key is the identity (first write wins). -/
theorem insertIfAbsent_of_present {α : Type} (d : List (String × α)) {k : String}
    (v : α) (h : (lookupDict d k).isSome) : insertIfAbsent d k v = d := by
  simp [insertIfAbsent, containsKey, h]

/-- `insertIfAbsent` never disturbs a key that is already bound. -/
theorem insertIfAbsent_lookup_keep {α : Type} (d : List (String × α)) (k k0 : String)
    (v : α) (h : (lookupDict d k0).isSome) :
    lookupDict (insertIfAbsent d k v) k0 = lookupDict d k0 := by
  by_cases hk : k = k0
  · subst hk
    rw [insertIfAbsent_of_present d v h]
  · exact insertIfAbsent_lookup_ne d v hk

/-- Right-cancellation for string append. -/
theorem str_append_cancel {a b c : String} (h : a ++ c = b ++ c) : a = b := by
  have h1 : a.data ++ c.data = b.data ++ c.data := congrArg String.data h
  have h2 : a.data = b.data := List.append_cancel_right h1
  cases a
  cases b
  exact congrArg String.mk h2

/-- No string ending in the 12-month suffix equals one ending in the
3-month suffix (they differ at the 8th character from the end). -/
theorem append_suffix12_ne_suffix3 (a b : String) : a ++ suffix12 ≠ b ++ suffix3 := by
  intro h
  have h1 : (a.data ++ suffix12.data).reverse.get? 7 =
      (b.data ++ suffix3.data).reverse.get? 7 :=
    congrArg (fun s : String => s.data.reverse.get? 7) h
  rw [List.reverse_append, List.reverse_append,
    List.get?_append (by decide : 7 < suffix12.data.reverse.length),
    List.get?_append (by decide : 7 < suffix3.data.reverse.length)] at h1
  exact absurd h1 (by decide)

/-- `extractStep` leaves alone every key it cannot produce from its cell. -/
theorem extractStep_lookup_ne (isDre : Bool) (st : List String × List (String × ℚ))
    (cell : String × String) {k : String} (h1 : cell.1 ≠ k)
    (h2 : cell.1 ++ suffix12 ≠ k) (h3 : cell.1 ++ suffix3 ≠ k) :
    lookupDict (extractStep isDre st cell).2 k = lookupDict st.2 k := by
  rcases st with ⟨seen, acc⟩
  simp only [extractStep]
  split_ifs
  · exact insertIfAbsent_lookup_ne _ _ h3
  · exact insertIfAbsent_lookup_ne _ _ h2
  · exact insertIfAbsent_lookup_ne _ _ h1

/-- `extractStep` never disturbs an already-bound key. -/
theorem extractStep_lookup_keep (isDre : Bool) (st : List String × List (String × ℚ))
    (cell : String × String) {k : String} (h : (lookupDict st.2 k).isSome) :
    lookupDict (extractStep isDre st cell).2 k = lookupDict st.2 k := by
  rcases st with ⟨seen, acc⟩
  simp only [extractStep]
  split_ifs <;> exact insertIfAbsent_lookup_keep _ _ _ _ h

/-- `extractStep` changes membership of `dre_labels_order` only for its own
label. -/
theorem extractStep_seen (isDre : Bool) (st : List String × List (String × ℚ))
    (cell : String × String) {L : String} (h : cell.1 ≠ L) :
    (L ∈ (extractStep isDre st cell).1 ↔ L ∈ st.1) := by
  rcases st with ⟨seen, acc⟩
  simp only [extractStep]
  split_ifs <;> simp [Ne.symm h]

/-- Folding over cells none of which can produce key `k` preserves `k`. -/
theorem foldl_extractStep_lookup_ne (isDre : Bool) (l : List (String × String))
    (st : List String × List (String × ℚ)) {k : String}
    (h : ∀ p ∈ l, p.1 ≠ k ∧ p.1 ++ suffix12 ≠ k ∧ p.1 ++ suffix3 ≠ k) :
    lookupDict ((l.foldl (extractStep isDre) st).2) k = lookupDict st.2 k := by
  induction l generalizing st with
  | nil => rfl
  | cons p rest ih =>
    obtain ⟨h1, h2, h3⟩ := h p (List.mem_cons_self _ _)
    rw [List.foldl_cons, ih _ (fun q hq => h q (List.mem_cons_of_mem _ hq)),
      extractStep_lookup_ne isDre st p h1 h2 h3]

/-- Folding over any cells preserves an already-bound key (first write wins
across the whole rest of the extraction). -/
theorem foldl_extractStep_lookup_keep (isDre : Bool) (l : List (String × String))
    (st : List String × List (String × ℚ)) {k : String}
    (h : (lookupDict st.2 k).isSome) :
    lookupDict ((l.foldl (extractStep isDre) st).2) k = lookupDict st.2 k := by
  induction l generalizing st with
  | nil => rfl
  | cons p rest ih =>
    have hstep := extractStep_lookup_keep isDre st p h
    rw [List.foldl_cons, ih _ (by rw [hstep]; exact h), hstep]

/-- Folding over cells whose labels differ from `L` preserves whether `L`
was seen. -/
theorem foldl_extractStep_seen (isDre : Bool) (l : List (String × String))
    (st : List String × List (String × ℚ)) {L : String}
    (h : ∀ p ∈ l, p.1 ≠ L) :
    (L ∈ (l.foldl (extractStep isDre) st).1 ↔ L ∈ st.1) := by
  induction l generalizing st with
  | nil => exact Iff.rfl
  | cons p rest ih =>
    rw [List.foldl_cons, ih _ (fun q hq => h q (List.mem_cons_of_mem _ hq)),
      extractStep_seen isDre st p (h p (List.mem_cons_self _ _))]

/-- `List.contains` agrees with membership (strings). -/
theorem contains_eq_true_of_mem {l : List String} {a : String} (h : a ∈ l) :
    l.contains a = true := List.elem_iff.mpr h

/-- `List.contains` is false off the list (strings). -/
theorem contains_eq_false_of_not_mem {l : List String} {a : String} (h : a ∉ l) :
    l.contains a = false := by
  rw [← Bool.not_eq_true]
  intro hc
  exact h (List.elem_iff.mp hc)

/-- **C8**: (a) when no candidate title matches any section heading the
extractor returns the empty mapping without raising; (b) a key already
present in the accumulated mapping is never overwritten by the rest of the
extraction (first write wins); (c) in an income-statement section where a
headline label occurs twice (and the suffixed keys do not also occur as raw
labels), the first occurrence is stored under the 12-month key and the
second under the 3-month key. -/
theorem C8_table_extractor :
    (∀ (sections : List TableSection) (titles : List String),
      (∀ t ∈ titles, ∀ sec ∈ sections, sec.title ≠ t) →
      extractTableData sections titles = []) ∧
    (∀ (isDre : Bool) (cells : List (String × String))
        (st : List String × List (String × ℚ)) (k : String),
      (lookupDict st.2 k).isSome →
      lookupDict ((cells.foldl (extractStep isDre) st).2) k = lookupDict st.2 k) ∧
    (∀ (title : String) (rows : List (List (String × String)))
        (l1 l2 l3 : List (String × String)) (L v1 v2 : String),
      title ∈ dreTitles → L ∈ headlineLabels →
      rows.join = l1 ++ (L, v1) :: (l2 ++ (L, v2) :: l3) →
      (∀ p ∈ rows.join, p.1 ≠ L ++ suffix12 ∧ p.1 ≠ L ++ suffix3) →
      (∀ p ∈ l1, p.1 ≠ L) → (∀ p ∈ l2, p.1 ≠ L) →
      lookupDict (extractTableData [⟨title, rows⟩] [title]) (L ++ suffix12) =
        some (clean_value (some v1)) ∧
      lookupDict (extractTableData [⟨title, rows⟩] [title]) (L ++ suffix3) =
        some (clean_value (some v2))) := by
  refine ⟨?_, ?_, ?_⟩
  · intro sections titles h
    unfold extractTableData
    have hf : titles.findSome? (fun t =>
        (sections.find? (fun sec => sec.title == t)).map (fun sec => (t, sec.rows))) =
        none := by
      induction titles with
      | nil => rfl
      | cons t ts ih =>
        have hft : (sections.find? fun sec => sec.title == t) = none :=
          List.find?_eq_none.mpr (fun sec hsec => by
            simpa using h t (List.mem_cons_self _ _) sec hsec)
        simp only [List.findSome?, hft, Option.map_none]
        exact ih (fun t2 ht2 sec hsec => h t2 (List.mem_cons_of_mem _ ht2) sec hsec)
    rw [hf]
  · exact fun isDre cells st k h => foldl_extractStep_lookup_keep isDre cells st h
  · intro title rows l1 l2 l3 L v1 v2 htitle hL hjoin hps hl1 hl2
    have hcontains : dreTitles.contains title = true := contains_eq_true_of_mem htitle
    have hred : extractTableData [⟨title, rows⟩] [title] =
        ((rows.join).foldl (extractStep true)
          (([], []) : List String × List (String × ℚ))).2 := by
      unfold extractTableData
      have h1 : ([title].findSome? fun t =>
          (([⟨title, rows⟩] : List TableSection).find? fun sec => sec.title == t).map
            fun sec => (t, sec.rows)) = some (title, rows) := by
        simp [List.findSome?, List.find?]
      rw [h1]
      show runTable (dreTitles.contains title) rows =
        ((rows.join).foldl (extractStep true)
          (([], []) : List String × List (String × ℚ))).2
      rw [hcontains]
      unfold runTable
      rw [← List.foldl_join]
    have hmem1 : ∀ p ∈ l1, p ∈ rows.join := fun p hp => by
      rw [hjoin]; exact List.mem_append_left _ hp
    have hmem2 : ∀ p ∈ l2, p ∈ rows.join := fun p hp => by
      rw [hjoin]
      exact List.mem_append_right _ (List.mem_cons_of_mem _ (List.mem_append_left _ hp))
    set st1 := l1.foldl (extractStep true)
      (([], []) : List String × List (String × ℚ)) with hst1
    have h12_1 : lookupDict st1.2 (L ++ suffix12) = none := by
      rw [hst1, foldl_extractStep_lookup_ne true l1 _ (fun p hp =>
        ⟨(hps p (hmem1 p hp)).1,
         fun heq => (hl1 p hp) (str_append_cancel heq),
         (append_suffix12_ne_suffix3 L p.1).symm⟩)]
      rfl
    have h3_1 : lookupDict st1.2 (L ++ suffix3) = none := by
      rw [hst1, foldl_extractStep_lookup_ne true l1 _ (fun p hp =>
        ⟨(hps p (hmem1 p hp)).2,
         append_suffix12_ne_suffix3 p.1 L,
         fun heq => (hl1 p hp) (str_append_cancel heq)⟩)]
      rfl
    have hseen1 : L ∉ st1.1 := by
      rw [hst1, foldl_extractStep_seen true l1 _ hl1]
      simp
    have hhl : headlineLabels.contains L = true := contains_eq_true_of_mem hL
    have hst2 : extractStep true st1 (L, v1) =
        (st1.1 ++ [L],
          insertIfAbsent st1.2 (L ++ suffix12) (clean_value (some v1))) := by
      simp only [extractStep, hhl, Bool.and_self, if_true,
        contains_eq_false_of_not_mem hseen1]
      simp
    have h12_2 : lookupDict
        (insertIfAbsent st1.2 (L ++ suffix12) (clean_value (some v1)))
        (L ++ suffix12) = some (clean_value (some v1)) :=
      insertIfAbsent_lookup_new _ _ h12_1
    have h3_2 : lookupDict
        (insertIfAbsent st1.2 (L ++ suffix12) (clean_value (some v1)))
        (L ++ suffix3) = none := by
      rw [insertIfAbsent_lookup_ne _ _ (append_suffix12_ne_suffix3 L L)]
      exact h3_1
    have hseen2 : L ∈ st1.1 ++ [L] :=
      List.mem_append_right _ (List.mem_singleton.mpr rfl)
    set st3 := l2.foldl (extractStep true)
      (st1.1 ++ [L], insertIfAbsent st1.2 (L ++ suffix12) (clean_value (some v1)))
      with hst3
    have h12_3 : lookupDict st3.2 (L ++ suffix12) = some (clean_value (some v1)) := by
      rw [hst3, foldl_extractStep_lookup_keep true l2 _
        (by show (lookupDict (insertIfAbsent st1.2 (L ++ suffix12)
            (clean_value (some v1))) (L ++ suffix12)).isSome
            rw [h12_2]
            rfl)]
      exact h12_2
    have h3_3 : lookupDict st3.2 (L ++ suffix3) = none := by
      rw [hst3, foldl_extractStep_lookup_ne true l2 _ (fun p hp =>
        ⟨(hps p (hmem2 p hp)).2,
         append_suffix12_ne_suffix3 p.1 L,
         fun heq => (hl2 p hp) (str_append_cancel heq)⟩)]
      exact h3_2
    have hseen3 : L ∈ st3.1 := by
      rw [hst3, foldl_extractStep_seen true l2 _ hl2]
      exact hseen2
    have hst4 : extractStep true st3 (L, v2) =
        (st3.1, insertIfAbsent st3.2 (L ++ suffix3) (clean_value (some v2))) := by
      simp only [extractStep, hhl, Bool.and_self, if_true,
        contains_eq_true_of_mem hseen3]
    have h12_4 : lookupDict
        (insertIfAbsent st3.2 (L ++ suffix3) (clean_value (some v2)))
        (L ++ suffix12) = some (clean_value (some v1)) := by
      rw [insertIfAbsent_lookup_ne _ _ (append_suffix12_ne_suffix3 L L).symm]
      exact h12_3
    have h3_4 : lookupDict
        (insertIfAbsent st3.2 (L ++ suffix3) (clean_value (some v2)))
        (L ++ suffix3) = some (clean_value (some v2)) :=
      insertIfAbsent_lookup_new _ _ h3_3
    rw [hred, hjoin, List.foldl_append, List.foldl_cons, List.foldl_append,
      List.foldl_cons, ← hst1, hst2, ← hst3, hst4]
    constructor
    · rw [foldl_extractStep_lookup_keep true l3 _
        (by show (lookupDict (insertIfAbsent st3.2 (L ++ suffix3)
            (clean_value (some v2))) (L ++ suffix12)).isSome
            rw [h12_4]
            rfl)]
      exact h12_4
    · rw [foldl_extractStep_lookup_keep true l3 _
        (by show (lookupDict (insertIfAbsent st3.2 (L ++ suffix3)
            (clean_value (some v2))) (L ++ suffix3)).isSome
            rw [h3_4]
            rfl)]
      exact h3_4

/-- Witness for `C8_table_extractor` on concrete tables: an unmatched title
gives `[]`; a pre-bound key survives a later cell with the same label; a
table repeating `EBIT` twice stores `10` under the 12-month key and `20`
under the 3-month key. -/
theorem C8_table_witness :
    extractTableData [] ["X"] = [] ∧
    lookupDict (([("EBIT", "2")].foldl (extractStep true)
        (([], [("EBIT", (1 : ℚ))]) : List String × List (String × ℚ))).2) "EBIT" =
      lookupDict ([("EBIT", (1 : ℚ))]) "EBIT" ∧
    lookupDict (extractTableData
        [⟨"Demonstrativo de Resultados", [[("EBIT", "10"), ("EBIT", "20")]]⟩]
        ["Demonstrativo de Resultados"]) ("EBIT" ++ suffix12) =
      some (clean_value (some "10")) ∧
    lookupDict (extractTableData
        [⟨"Demonstrativo de Resultados", [[("EBIT", "10"), ("EBIT", "20")]]⟩]
        ["Demonstrativo de Resultados"]) ("EBIT" ++ suffix3) =
      some (clean_value (some "20")) := by
  have h := C8_table_extractor.2.2 "Demonstrativo de Resultados"
    [[("EBIT", "10"), ("EBIT", "20")]] [] [] [] "EBIT" "10" "20"
    (by decide) (by decide) (by decide) (by decide) (by decide) (by decide)
  exact ⟨C8_table_extractor.1 [] ["X"] (by simp),
    C8_table_extractor.2.1 true [("EBIT", "2")] _ "EBIT" (by decide),
    h.1, h.2⟩

/-! ## Indicator assembler (`extract_financial_data`, lines 152–246) -/

/-- A value of the assembled financial-data dictionary: every indicator is a
float except the company name, which is a string. -/
inductive FieldValue where
  | num (q : ℚ)
  | str (s : String)
deriving DecidableEq, Repr

/-- The parsed document as the assembler consumes it: for each display label
the text of the adjacent `td.data` span (if label and value were found), the
titled tables, and the company-name value cell. -/
structure SoupModel where
  mainValue : String → Option String
  sections : List TableSection
  empresaValue : Option String

/-- The fixed catalog `main_indicators_mapping` (display label, canonical
key), in source order. -/
def mainIndicators : List (String × String) :=
  [("Cotação", "cotacao_atual"), ("P/L", "preco_lucro"),
   ("P/VP", "preco_valor_patrimonial"), ("P/EBIT", "preco_ebit"),
   ("PSR", "price_sales_ratio"), ("EV / EBITDA", "ev_ebitda"),
   ("Div. Yield", "dividend_yield"), ("LPA", "lucro_por_acao"),
   ("VPA", "valor_patrimonial_acao"), ("Marg. Bruta", "margem_bruta"),
   ("Marg. EBIT", "margem_ebit"), ("Marg. Líquida", "margem_liquida"),
   ("ROE", "roe"), ("ROIC", "roic"), ("Liquidez Corr", "liquidez_corrente"),
   ("Div Br/ Patrim", "divida_bruta_patrimonio"),
   ("Cres. Rec (5a)", "cres_receita_5a"), ("Valor da Firma", "enterprise_value"),
   ("Nro. Ações", "numero_acoes")]

/-- Candidate titles of the balance-sheet table. -/
def balancoTitles : List String := ["Dados Balanço Patrimonial", "Balanço Patrimonial"]

/-- Python `dict.get(k, default)` on a numeric table mapping. -/
def getD (d : List (String × ℚ)) (k : String) (dflt : ℚ) : ℚ :=
  (lookupDict d k).getD dflt

/-- Python `data.get(k, default)` on the heterogeneous record (numeric
default). -/
def getNumD (d : List (String × FieldValue)) (k : String) (dflt : ℚ) : ℚ :=
  match lookupDict d k with
  | some (FieldValue.num q) => q
  | _ => dflt

/-- `HybridStockAnalyzer.extract_financial_data`: normalize every catalog
indicator (missing label/value passes `None` to `clean_value`, hence `0.0`),
extract the income-statement and balance-sheet tables with their fallback
chains, record the company name (default `"N/A"`), and derive the Greenblatt
fields; keys appear in source insertion order. -/
def extract_financial_data (soup : SoupModel) : List (String × FieldValue) :=
  let mainData := mainIndicators.map
    (fun p => (p.2, FieldValue.num (clean_value (soup.mainValue p.1))))
  let dre := extractTableData soup.sections dreTitles
  let ebit12 := getD dre "EBIT (Últimos 12 meses)" (getD dre "EBIT" 0)
  let lucro12 := getD dre "Lucro Líquido (Últimos 12 meses)" (getD dre "Lucro Líquido" 0)
  let receita12 := getD dre "Receita Líquida (Últimos 12 meses)"
    (getD dre "Receita Líquida" 0)
  let balanco := extractTableData soup.sections balancoTitles
  let ativoCirc := getD balanco "Ativo Circulante" 0
  let passivoCirc := getD balanco "Passivo Circulante" 0
  let imobPrim := getD balanco "Ativo Imobilizado" (getD balanco "Imobilizado" 0)
  let imob := if imobPrim = 0 then getD balanco "Ativo Não Circulante" 0 else imobPrim
  let patrimonio := getD balanco "Patrim. Líq" (getNumD mainData "patrimonio_liquido_total" 0)
  let nome := soup.empresaValue.getD "N/A"
  let ev := getNumD mainData "enterprise_value" 0
  let nwc := ativoCirc - passivoCirc
  let capital := nwc + imob
  mainData ++
    [("ebit_12m", FieldValue.num ebit12),
     ("lucro_liquido_12m", FieldValue.num lucro12),
     ("receita_liquida_12m", FieldValue.num receita12),
     ("ativo_circulante", FieldValue.num ativoCirc),
     ("passivo_circulante", FieldValue.num passivoCirc),
     ("ativo_imobilizado_liquido", FieldValue.num imob),
     ("patrimonio_liquido_total", FieldValue.num patrimonio),
     ("nome_empresa_completo", FieldValue.str nome),
     ("greenblatt_nwc_calculado", FieldValue.num nwc),
     ("greenblatt_nfa_usado", FieldValue.num imob),
     ("greenblatt_ebit_usado", FieldValue.num ebit12),
     ("greenblatt_ev_usado", FieldValue.num ev),
     ("greenblatt_earnings_yield", FieldValue.num (if ev ≠ 0 then ebit12 / ev else 0)),
     ("greenblatt_return_on_capital",
       FieldValue.num (if capital ≠ 0 then ebit12 / capital else 0))]

/-- The canonical numeric keys of the assembled record: the 19 catalog keys
plus the 13 derived income-statement/balance-sheet/Greenblatt keys. -/
def numericKeys : List String :=
  ["cotacao_atual", "preco_lucro", "preco_valor_patrimonial", "preco_ebit",
   "price_sales_ratio", "ev_ebitda", "dividend_yield", "lucro_por_acao",
   "valor_patrimonial_acao", "margem_bruta", "margem_ebit", "margem_liquida",
   "roe", "roic", "liquidez_corrente", "divida_bruta_patrimonio",
   "cres_receita_5a", "enterprise_value", "numero_acoes",
   "ebit_12m", "lucro_liquido_12m", "receita_liquida_12m",
   "ativo_circulante", "passivo_circulante", "ativo_imobilizado_liquido",
   "patrimonio_liquido_total",
   "greenblatt_nwc_calculado", "greenblatt_nfa_usado", "greenblatt_ebit_usado",
   "greenblatt_ev_usado", "greenblatt_earnings_yield",
   "greenblatt_return_on_capital"]

/-- **C9 counterexample**: on the empty document the company-name key is
present but holds the *string* `"N/A"` — not a float and not `0.0` — so the
claim that every key (company name included) maps to a float fails. -/
theorem C9_name_counterexample :
    lookupDict (extract_financial_data ⟨fun _ => none, [], none⟩)
      "nome_empresa_completo" = some (FieldValue.str "N/A") ∧
    ∀ q : ℚ, lookupDict (extract_financial_data ⟨fun _ => none, [], none⟩)
      "nome_empresa_completo" ≠ some (FieldValue.num q) := by
  have heq : lookupDict (extract_financial_data ⟨fun _ => none, [], none⟩)
      "nome_empresa_completo" = some (FieldValue.str "N/A") := by decide
  refine ⟨heq, fun q h => ?_⟩
  rw [heq] at h
  exact FieldValue.noConfusion (Option.some.inj h)

/-- **C9** (amended): for every input document the assembled record contains
every canonical numeric key (catalog + derived income-statement,
balance-sheet and Greenblatt keys) bound to a float; the company-name key is
always present and bound to a string; and a catalog indicator whose label or
value was not found maps to `0.0`, never absent. -/
theorem C9_record_assembly (soup : SoupModel) :
    (∀ k ∈ numericKeys, ∃ q : ℚ,
      lookupDict (extract_financial_data soup) k = some (FieldValue.num q)) ∧
    (∃ s : String, lookupDict (extract_financial_data soup)
      "nome_empresa_completo" = some (FieldValue.str s)) ∧
    (∀ lbl key : String, (lbl, key) ∈ mainIndicators → soup.mainValue lbl = none →
      lookupDict (extract_financial_data soup) key = some (FieldValue.num 0)) := by
  refine ⟨?_, ?_, ?_⟩
  · intro k hk
    fin_cases hk <;>
      simp [extract_financial_data, mainIndicators, lookupDict]
  · simp [extract_financial_data, mainIndicators, lookupDict]
  · intro lbl key hmem hnone
    fin_cases hmem <;>
      simp [extract_financial_data, mainIndicators, lookupDict, hnone, clean_value]

/-- Witness for `C9_record_assembly` on the empty document. -/
theorem C9_record_witness :
    (∃ q : ℚ, lookupDict (extract_financial_data ⟨fun _ => none, [], none⟩) "roe" =
      some (FieldValue.num q)) ∧
    lookupDict (extract_financial_data ⟨fun _ => none, [], none⟩) "cotacao_atual" =
      some (FieldValue.num 0) :=
  ⟨(C9_record_assembly _).1 "roe" (by decide),
   (C9_record_assembly _).2.2 "Cotação" "cotacao_atual" (by decide) rfl⟩

/-! ## Recommendation scorer (`generate_investment_analysis`, lines 316–371) -/

/-- The strength/weakness messages, modelled as tagged values carrying the
number the f-string would interpolate (one constructor per `append` site). -/
inductive Note where
  | potencialValorizacao (margin : ℚ)
  | mediaPrecosInconclusiva
  | roeExcelente (v : ℚ)
  | roeBom (v : ℚ)
  | roeNegativo (v : ℚ)
  | roicExcelente (v : ℚ)
  | roicBom (v : ℚ)
  | roicNegativo (v : ℚ)
  | plBaixo (v : ℚ)
  | plNegativo (v : ℚ)
  | endividamentoBaixo (v : ℚ)
  | endividamentoAlto (v : ℚ)
  | dividaPatrimonioNegativa (v : ℚ)
  | liquidezOtima (v : ℚ)
  | liquidezBaixa (v : ℚ)
  | crescimentoBom (v : ℚ)
  | crescimentoNegativo (v : ℚ)
deriving DecidableEq, Repr

/-- The analysis dictionary built by `generate_investment_analysis`. -/
structure Analysis where
  recommendation : String
  risk_level : String
  strengths : List Note
  weaknesses : List Note
  summary : String
  score : ℤ
deriving DecidableEq, Repr

/-- The margin tier chain of lines 328–333, in source order: note that
`< -0.15` is tested *before* `< -0.30` and `< -0.50`, so the two deeper
sell branches are unreachable. Returns (recommendation, score increment). -/
def marginRec (margin : ℚ) : String × ℤ :=
  if margin > 0.30 then ("COMPRAR FORTE", 3)
  else if margin > 0.15 then ("COMPRAR", 2)
  else if margin > 0.05 then ("COMPRAR FRACO", 1)
  else if margin < -0.15 then ("VENDER FRACO", -1)
  else if margin < -0.30 then ("VENDER", -2)
  else if margin < -0.50 then ("VENDER FORTE", -3)
  else ("NEUTRO", 0)

/-- ROE block (lines 348–350): (score increment, strengths, weaknesses). -/
def roeNotes (roe : ℚ) : ℤ × List Note × List Note :=
  if roe > 0.20 then (2, [Note.roeExcelente roe], [])
  else if roe > 0.10 then (1, [Note.roeBom roe], [])
  else if roe < 0 ∧ roe ≠ 0 then (-2, [], [Note.roeNegativo roe])
  else (0, [], [])

/-- ROIC block (lines 352–354). -/
def roicNotes (roic : ℚ) : ℤ × List Note × List Note :=
  if roic > 0.15 then (2, [Note.roicExcelente roic], [])
  else if roic > 0.10 then (1, [Note.roicBom roic], [])
  else if roic < 0 ∧ roic ≠ 0 then (-2, [], [Note.roicNegativo roic])
  else (0, [], [])

/-- P/L block (lines 356–357). -/
def plNotes (pl : ℚ) : ℤ × List Note × List Note :=
  if 0 < pl ∧ pl < 10 then (1, [Note.plBaixo pl], [])
  else if pl < 0 then (-2, [], [Note.plNegativo pl])
  else (0, [], [])

/-- Debt/equity block (lines 359–361). -/
def dividaNotes (d : ℚ) : ℤ × List Note × List Note :=
  if 0 ≤ d ∧ d < 0.5 then (1, [Note.endividamentoBaixo d], [])
  else if d > 1 then (-1, [], [Note.endividamentoAlto d])
  else if d < 0 then (-2, [], [Note.dividaPatrimonioNegativa d])
  else (0, [], [])

/-- Current-ratio block (lines 363–364). -/
def liquidezNotes (l : ℚ) : ℤ × List Note × List Note :=
  if l > 2 then (1, [Note.liquidezOtima l], [])
  else if l < 1 ∧ 0 ≤ l then (-1, [], [Note.liquidezBaixa l])
  else (0, [], [])

/-- Revenue-growth block (lines 366–367). -/
def crescimentoNotes (c : ℚ) : ℤ × List Note × List Note :=
  if c > 0.10 then (1, [Note.crescimentoBom c], [])
  else if c < 0 ∧ c ≠ 0 then (-1, [], [Note.crescimentoNegativo c])
  else (0, [], [])

/-- `HybridStockAnalyzer.generate_investment_analysis`: the margin tier (plus
its strength note) when price and composite fair value are both positive,
the two degenerate branches otherwise, then the six quality-indicator blocks;
score clamped to `[-10, 10]`, `risk_level` initialized to `"MÉDIO"` and never
recomputed. -/
def generate_investment_analysis (data : FinancialRecord)
    (fair_prices : FairPriceSet) (ticker_input_original : String) : Analysis :=
  let cotacao := data.cotacao_atual
  let pj := fair_prices.average
  let head : String × ℤ × List Note × List Note :=
    if 0 < pj ∧ 0 < cotacao then
      ((marginRec ((pj - cotacao) / cotacao)).1,
       (marginRec ((pj - cotacao) / cotacao)).2,
       [Note.potencialValorizacao ((pj - cotacao) / cotacao)], [])
    else if cotacao ≤ 0 ∧ 0 < pj then ("ANALISAR (Cotação Anormal)", 0, [], [])
    else if pj ≤ 0 ∧ 0 < cotacao then
      ("CAUTELA", 0, [], [Note.mediaPrecosInconclusiva])
    else ("NEUTRO", 0, [], [])
  let a1 := roeNotes data.roe
  let a2 := roicNotes data.roic
  let a3 := plNotes data.preco_lucro
  let a4 := dividaNotes data.divida_bruta_patrimonio
  let a5 := liquidezNotes data.liquidez_corrente
  let a6 := crescimentoNotes data.cres_receita_5a
  let total := head.2.1 + a1.1 + a2.1 + a3.1 + a4.1 + a5.1 + a6.1
  let score := max (min total 10) (-10)
  { recommendation := head.1, risk_level := "MÉDIO",
    strengths := head.2.2.1 ++ a1.2.1 ++ a2.2.1 ++ a3.2.1 ++ a4.2.1 ++ a5.2.1 ++ a6.2.1,
    weaknesses := head.2.2.2 ++ a1.2.2 ++ a2.2.2 ++ a3.2.2 ++ a4.2.2 ++ a5.2.2 ++ a6.2.2,
    summary := ticker_input_original.toUpper ++ " (" ++ data.nome_empresa_completo ++
      "): " ++ head.1 ++ " (Score " ++ toString score ++ ")",
    score := score }

/-- **C10**: for every record, fair-price set and ticker string the
recommendation object has `risk_level = "MÉDIO"`; it is initialized to this
constant and never recomputed. -/
theorem C10_risk_level_constant (data : FinancialRecord) (fair_prices : FairPriceSet)
    (ticker : String) :
    (generate_investment_analysis data fair_prices ticker).risk_level = "MÉDIO" := rfl

/-- **C1** (code bug): at `price = 10`, composite fair value `4`, the margin
`(4-10)/10 = -0.6` lies below `-0.50`, where the claim's tier table gives
strong-sell (`VENDER FORTE`, score `-3`); but because the code tests
`< -0.15` before `< -0.30` and `< -0.50`, it yields `VENDER FRACO` with
score increment `-1` (total score `-1` on this record: `-1 + 1 - 1`), and the
`VENDER`/`VENDER FORTE` branches are unreachable. The margin strength note
is appended, as the claim states. -/
theorem C1_sell_tier_divergence :
    ((4 - 10 : ℚ) / 10 < -0.50) ∧
    marginRec ((4 - 10 : ℚ) / 10) = ("VENDER FRACO", -1) ∧
    marginRec ((4 - 10 : ℚ) / 10) ≠ ("VENDER FORTE", -3) ∧
    (generate_investment_analysis ⟨10, 0, 0, 0, 0, 0, 0, 0, 0, 0, "X"⟩
      ⟨0, 0, 0, 0, 4⟩ "pet").recommendation = "VENDER FRACO" ∧
    (generate_investment_analysis ⟨10, 0, 0, 0, 0, 0, 0, 0, 0, 0, "X"⟩
      ⟨0, 0, 0, 0, 4⟩ "pet").score = -1 ∧
    (generate_investment_analysis ⟨10, 0, 0, 0, 0, 0, 0, 0, 0, 0, "X"⟩
      ⟨0, 0, 0, 0, 4⟩ "pet").strengths =
      [Note.potencialValorizacao (((4 : ℚ) - 10) / 10), Note.endividamentoBaixo 0] := by
  have h2 : marginRec ((4 - 10 : ℚ) / 10) = ("VENDER FRACO", -1) := by
    with_unfolding_all rfl
  refine ⟨by norm_num, h2, ?_, ?_, ?_, ?_⟩
  · rw [h2]
    decide
  · with_unfolding_all rfl
  · with_unfolding_all rfl
  · with_unfolding_all rfl
